import Mathlib

/-!
Verification of the servo motion controller of the robot repository.

The definitions below are a shallow embedding of the Python sources:

* src/src/robot/controllers/robot_controller.py — class RobotController
  (the functions angle-to-pwm, validate-servo-params, set-servo-batch,
  move-servo-group, set-servo), with the per-servo limit table coming
  from src/src/robot/config.py;
* src/robot_controller.py and src/mock_robot_controller.py — module-level
  set_servo with the SERVO_LIMITS dictionary and its (0, 180) fallback;
* src/calibration.py — module-level set_servo (safety clamp, 0.5 degree
  no-op threshold, release branch, gradual-move branch, error handling that
  returns False and leaves the position cache untouched).

Angles are modelled as exact rationals; Python int() (truncation toward
zero) is pyInt.  Machine floats are not modelled: for every value reached in
the theorems below the float computation and the exact rational computation
truncate to the same integer.  Fallible device writes are modelled by an
explicit sink function, and Python exceptions by Option or Except results.
-/

attribute [local semireducible] Rat.add Rat.mul Rat.inv Rat.sub

namespace Robot

/-- Python int() applied to a rational: truncation toward zero. -/
def pyInt (q : ℚ) : ℤ := if q < 0 then ⌈q⌉ else ⌊q⌋

/-- The SERVO_LIMITS dictionary of calibration.py, robot_controller.py and
mock_robot_controller.py: channel 0 (HEAD) has limits (45, 135), channels
1..12 have (30, 150); the dictionary lookup with default (0, 180) falls back
to the full range for any other channel. -/
def servoLimits (ch : ℕ) : ℤ × ℤ :=
  if ch = 0 then (45, 135)
  else if ch ≤ 12 then (30, 150)
  else (0, 180)

/-- Safety clamp used by set_servo in robot_controller.py,
mock_robot_controller.py and calibration.py:
safe_angle = max(min_angle, min(max_angle, angle)). -/
def clampAngle (ch : ℕ) (a : ℚ) : ℚ :=
  max ((servoLimits ch).1 : ℚ) (min ((servoLimits ch).2 : ℚ) a)

/-- Per-servo limits of src/src/robot/config.py (its servo config table),
keyed by servo id; none for ids outside the table (13 joints, ids 0..12).
The config lookup of servo limits raises ValueError exactly on the none
cases. -/
def configServoLimits (ch : ℕ) : Option (ℤ × ℤ) :=
  if ch = 0 then some (45, 135)
  else if ch = 1 ∨ ch = 2 then some (30, 150)
  else if ch = 3 then some (60, 180)
  else if ch = 4 then some (0, 120)
  else if 5 ≤ ch ∧ ch ≤ 10 then some (60, 120)
  else if ch = 11 ∨ ch = 12 then some (30, 150)
  else none

/-- Core of the angle-to-PWM conversion, as computed inline in
robot_controller.py and by RobotController: int(205 + (angle / 180.0) * 205),
on an integer angle. -/
def pwmOf (a : ℤ) : ℤ := pyInt (205 + (a : ℚ) / 180 * 205)

/-- The same conversion on an arbitrary (possibly fractional) angle, as in
robot_controller.py where safe_angle is a float. -/
def angleToPwmQ (a : ℚ) : ℤ := pyInt (205 + a / 180 * 205)

/-- The angle-to-pwm method of RobotController: raises ValueError (here none)
unless 0 <= angle <= 180, otherwise returns int(205 + (angle / 180.0) * 205). -/
def angleToPwm (a : ℤ) : Option ℤ :=
  if 0 ≤ a ∧ a ≤ 180 then some (pwmOf a) else none

/-- Modelled from the spec (section 4.1), for comparison only: the mapper the
specification describes returns round(min_pulse + (a / 180) * (max_pulse -
min_pulse)) with the 205/410 calibration pair chosen by this code base. -/
def specAngleToPulse (a : ℚ) : ℤ := round (205 + a / 180 * 205)

/-- The positions visited by the move-servo-group method of RobotController:
step is 1 if start is below the end position and -1 otherwise, and the Python
range runs from start to end inclusive.  For equal endpoints the list is just
the start position. -/
def positionsRange (s t : ℤ) : List ℤ :=
  if s < t then (List.range (t - s + 1).toNat).map (fun i : ℕ => s + (i : ℤ))
  else (List.range (s - t + 1).toNat).map (fun i : ℕ => s - (i : ℤ))

/-- The list comprehension building pwm values for all positions: evaluates
left to right, propagating the first raised exception as none. -/
def pwmValues : List ℤ → Option (List ℤ)
  | [] => some []
  | p :: rest =>
    match angleToPwm p, pwmValues rest with
    | some v, some vs => some (v :: vs)
    | _, _ => none

/-- Decidable equality of Except values, needed to evaluate concrete runs of
the embedded controller. -/
instance {ε α : Type} [DecidableEq ε] [DecidableEq α] :
    DecidableEq (Except ε α) := fun x y =>
  match x, y with
  | .ok a, .ok b =>
    if h : a = b then isTrue (by rw [h])
    else isFalse (by intro hh; cases hh; exact h rfl)
  | .error e, .error f =>
    if h : e = f then isTrue (by rw [h])
    else isFalse (by intro hh; cases hh; exact h rfl)
  | .ok _, .error _ => isFalse (by intro hh; cases hh)
  | .error _, .ok _ => isFalse (by intro hh; cases hh)

/-- Errors raised by set_servo_batch before any movement: ServoError for an
invalid servo id (the not-initialized error is not modelled; all theorems
are about an initialized controller). -/
inductive BatchError where
  | invalidServo (ch : ℕ)
deriving DecidableEq

/-- The validate-servo-params method of RobotController: look up the config
limits (ValueError becomes ServoError for unknown ids) and return
int(max(min_angle, min(max_angle, angle))). -/
def validateServoParams (ch : ℕ) (a : ℚ) : Option ℤ :=
  (configServoLimits ch).map (fun l => pyInt (max (l.1 : ℚ) (min (l.2 : ℚ) a)))

/-- The validation loop at the top of set_servo_batch: iterates over the
requested dictionary in order and raises ServoError at the first unknown
servo id, before any hardware write.  The membership test against the servo
state table and the config lookup have the same domain, ids 0..12. -/
def validateAll : List (ℕ × ℚ) → Except BatchError (List (ℕ × ℤ))
  | [] => .ok []
  | (ch, a) :: rest =>
    match validateServoParams ch a with
    | none => .error (.invalidServo ch)
    | some t =>
      match validateAll rest with
      | .error e => .error e
      | .ok v => .ok ((ch, t) :: v)

/-- The channels of a validated batch whose current position differs from
their target: only those are entered into the movement groups. -/
def movers (st : ℕ → ℤ) (validated : List (ℕ × ℤ)) : List (ℕ × ℤ) :=
  validated.filter (fun p => decide (st p.1 ≠ p.2))

/-- The distinct (current, target) keys of the movement groups built by
set_servo_batch.  Python dict ordering is an implementation detail; no claim
depends on the order in which groups run, since groups have disjoint
channels. -/
def groupKeys (st : ℕ → ℤ) (validated : List (ℕ × ℤ)) : List (ℤ × ℤ) :=
  ((movers st validated).map (fun p => (st p.1, p.2))).dedup

/-- The member channels of the movement group with the given
(current, target) key. -/
def groupMembers (st : ℕ → ℤ) (validated : List (ℕ × ℤ)) (key : ℤ × ℤ) :
    List ℕ :=
  ((movers st validated).filter (fun p => decide ((st p.1, p.2) = key))).map
    Prod.fst

/-- One synchronized step of the move-servo-group method: write the pwm value
to every channel of the group, then store that same pwm value into the
position field of every channel of the group (this is what the source does:
it assigns pwm_value, not the angle, to the stored position). -/
def groupStep (ids : List ℕ) (acc : (ℕ → ℤ) × List (ℕ × ℤ)) (pwm : ℤ) :
    (ℕ → ℤ) × List (ℕ × ℤ) :=
  (fun c => if c ∈ ids then pwm else acc.1 c, acc.2 ++ ids.map (fun c => (c, pwm)))

/-- The move-servo-group method of RobotController: precompute the pwm values
of all positions (a ValueError there aborts the whole group, modelled as
none), then run the synchronized steps.  The returned list collects the
(channel, pwm) device writes in order. -/
def moveServoGroup (ids : List ℕ) (s t : ℤ) (st : ℕ → ℤ) :
    Option ((ℕ → ℤ) × List (ℕ × ℤ)) :=
  match pwmValues (positionsRange s t) with
  | none => none
  | some pwms => some (pwms.foldl (groupStep ids) (st, []))

/-- Processing of a single movement group inside set_servo_batch: a group
whose future raises is skipped by the bare except/continue, leaving the state
as it was. -/
def groupProcess (st0 : ℕ → ℤ) (validated : List (ℕ × ℤ))
    (acc : (ℕ → ℤ) × List (ℕ × ℤ)) (key : ℤ × ℤ) : (ℕ → ℤ) × List (ℕ × ℤ) :=
  match moveServoGroup (groupMembers st0 validated key) key.1 key.2 acc.1 with
  | none => acc
  | some r => (r.1, acc.2 ++ r.2)

/-- Running all movement groups of a validated batch.  The source submits the
groups to a thread pool; since distinct groups have disjoint channel sets and
each group only touches its own channels, the final state equals the one of
this sequential fold. -/
def runGroups (st : ℕ → ℤ) (validated : List (ℕ × ℤ)) :
    (ℕ → ℤ) × List (ℕ × ℤ) :=
  (groupKeys st validated).foldl (groupProcess st validated) (st, [])

/-- The set_servo_batch method of an initialized RobotController: validate
every requested channel (raising before any write on an unknown id), group
the channels by (current, target) and move the groups. -/
def setServoBatch (batch : List (ℕ × ℚ)) (st : ℕ → ℤ) :
    Except BatchError ((ℕ → ℤ) × List (ℕ × ℤ)) :=
  match validateAll batch with
  | .error e => .error e
  | .ok validated => .ok (runGroups st validated)

/-- The set_servo method of RobotController: a batch of size one. -/
def setServo1 (ch : ℕ) (a : ℚ) (st : ℕ → ℤ) :
    Except BatchError ((ℕ → ℤ) × List (ℕ × ℤ)) :=
  setServoBatch [(ch, a)] st

/-- The position stored for a channel after a batch move, read back the way
get_servo_state reads it; none when set_servo_batch raised. -/
def batchPos (batch : List (ℕ × ℚ)) (st : ℕ → ℤ) (ch : ℕ) : Option ℤ :=
  match setServoBatch batch st with
  | .error _ => none
  | .ok r => some (r.1 ch)

/-- The device writes issued by a batch move (empty when set_servo_batch
raised: validation happens before any write). -/
def batchWrites (batch : List (ℕ × ℚ)) (st : ℕ → ℤ) : List (ℕ × ℤ) :=
  match setServoBatch batch st with
  | .error _ => []
  | .ok r => r.2

/-- Servo state at controller construction: every calibrated default position
in config.py is 90 degrees. -/
def defaultState : ℕ → ℤ := fun _ => 90

/-- Steps of one group when the device write can fail: a raised write aborts
the remaining steps of the group and skips the state update of the failing
step (the source updates positions only after the writes of a step). -/
def moveGroupGo (sink : ℕ → ℤ → Bool) (ids : List ℕ) :
    List ℤ → (ℕ → ℤ) → (ℕ → ℤ)
  | [], st => st
  | pwm :: rest, st =>
    if ids.all (fun c => sink c pwm) then
      moveGroupGo sink ids rest (fun c => if c ∈ ids then pwm else st c)
    else st

/-- The move-servo-group method with a fallible device sink. -/
def moveServoGroupF (sink : ℕ → ℤ → Bool) (ids : List ℕ) (s t : ℤ)
    (st : ℕ → ℤ) : ℕ → ℤ :=
  match pwmValues (positionsRange s t) with
  | none => st
  | some pwms => moveGroupGo sink ids pwms st

/-- The set_servo_batch method with a fallible device sink: a group whose
writes raise is abandoned at the failing step, and the bare except/continue
around the futures swallows the exception, so the caller never sees a device
error — only validation can produce an error value. -/
def setServoBatchF (sink : ℕ → ℤ → Bool) (batch : List (ℕ × ℚ))
    (st : ℕ → ℤ) : Except BatchError (ℕ → ℤ) :=
  match validateAll batch with
  | .error e => .error e
  | .ok validated =>
    .ok ((groupKeys st validated).foldl
      (fun acc key =>
        moveServoGroupF sink (groupMembers st validated key) key.1 key.2 acc)
      st)

/-- The current_positions cache of calibration.py: none means the channel is
absent from the dictionary. -/
abbrev CalState := ℕ → Option ℚ

/-- Reading a position from calibration.py: current_positions.get(ch, 90). -/
def calGet (st : CalState) (ch : ℕ) : ℚ := (st ch).getD 90

/-- The empty current_positions cache at module load. -/
def calEmpty : CalState := fun _ => none

/-- numpy linspace on rationals: n evenly spaced points from a to b,
both endpoints included (for n of at least 2). -/
def linspace (a b : ℚ) (n : ℕ) : List ℚ :=
  if n = 0 then []
  else if n = 1 then [a]
  else (List.range n).map (fun i => a + (i : ℚ) * (b - a) / ((n : ℚ) - 1))

/-- Step count of the gradual branch of calibration set_servo:
max(int(abs(current - safe) / 2), 5). -/
def calSteps (cur safe : ℚ) : ℕ := max (pyInt (|cur - safe| / 2)).toNat 5

/-- Pulse computation of calibration.py: min_pulse 150, max_pulse 600, so
int(150 + (a / 180.0) * 450). -/
def calPulse (a : ℚ) : ℤ := pyInt (150 + a / 180 * 450)

/-- The set_servo function of calibration.py (hardware path) with a fallible
device sink.  Returns the new cache, the successfully issued (channel, pulse)
writes, and the boolean result.  angle none is the release branch
(set_pwm(ch, 0, 0) then deletion from the cache); otherwise the angle is
clamped, a move within 0.5 degrees of the cache is skipped, and the move is
gradual when speed is positive and the distance exceeds 5 degrees.  The
cache is updated only on the line after all writes; any raising write makes
the function return False with the cache untouched. -/
def calSetServoF (sink : ℕ → ℤ → Bool) (st : CalState) (ch : ℕ)
    (angle : Option ℚ) (speed : ℚ) : CalState × List (ℕ × ℤ) × Bool :=
  match angle with
  | none =>
    if sink ch 0 then (fun c => if c = ch then none else st c, [(ch, 0)], true)
    else (st, [], false)
  | some a =>
    let safe := clampAngle ch a
    let cur := calGet st ch
    if |cur - safe| < 1/2 then (st, [], true)
    else
      let pulses :=
        if 0 < speed ∧ 5 < |cur - safe| then
          (linspace cur safe (calSteps cur safe)).map calPulse
        else [calPulse safe]
      if pulses.all (fun p => sink ch p) then
        (fun c => if c = ch then some safe else st c,
          pulses.map (fun p => (ch, p)), true)
      else (st, (pulses.takeWhile (fun p => sink ch p)).map (fun p => (ch, p)),
        false)

/-- The set_servo function of calibration.py with an always-successful
device. -/
def calSetServo (st : CalState) (ch : ℕ) (angle : Option ℚ) (speed : ℚ) :
    CalState × List (ℕ × ℤ) × Bool :=
  calSetServoF (fun _ _ => true) st ch angle speed

/-- A concrete faulty device used in the error-handling scenarios: the bus
write raises exactly when channel 5 is driven with a pwm count of 330 or
more (the counts for angles 110 and beyond). -/
def faultySink (ch : ℕ) (pwm : ℤ) : Bool :=
  !(decide (ch = 5) && decide (330 ≤ pwm))

section Sanity

example : pyInt (341 + 2/3) = 341 := by decide
example : pwmOf 120 = 341 := by decide
example : pwmOf 100 = 318 := by decide
example : pwmOf 0 = 205 := by decide
example : pwmOf 180 = 410 := by decide
example : pwmOf 109 = 329 := by decide
example : pwmOf 110 = 330 := by decide
example : angleToPwmQ 27 = 235 := by decide
example : specAngleToPulse 27 = 236 := by decide
example : positionsRange 90 92 = [90, 91, 92] := by decide
example : positionsRange 92 90 = [92, 91, 90] := by decide
example : positionsRange 90 90 = [90] := by decide
example : clampAngle 0 200 = 135 := by decide
example : validateAll [(5, 120), (6, 100)] = .ok [(5, 120), (6, 100)] := by
  decide
example : validateAll [(13, 90)] = .error (.invalidServo 13) := by decide
example : groupKeys defaultState [(5, 120), (6, 90)] = [(90, 120)] := by
  decide
example : groupMembers defaultState [(5, 120), (6, 90)] (90, 120) = [5] := by
  decide
example : batchPos [(5, 120), (6, 100)] defaultState 5 = some 341 := by decide
example : batchPos [(5, 120), (6, 100)] defaultState 6 = some 318 := by decide
example :
    ((batchWrites [(5, 120), (6, 100)] defaultState).filter
      (fun w => decide (w.1 = 6))).length = 11 := by decide
example : calPulse 60 = 300 := by decide
example : (calSetServo calEmpty 3 (some 60) 0).2.1 = [(3, 300)] := by decide
example : calGet (calSetServo calEmpty 3 (some 60) 0).1 3 = 60 := by decide

end Sanity

/-! Helper lemmas. -/

/-- Every limit table entry satisfies min_angle below max_angle. -/
lemma servoLimits_fst_le_snd (ch : ℕ) :
    (servoLimits ch).1 ≤ (servoLimits ch).2 := by
  unfold servoLimits
  split_ifs <;> norm_num

/-- Channels beyond the 13 table entries take the (0, 180) fallback. -/
lemma servoLimits_unknown (ch : ℕ) (h : 12 < ch) :
    servoLimits ch = (0, 180) := by
  unfold servoLimits
  rw [if_neg (by omega), if_neg (by omega)]

/-- Channels beyond the 13 config entries have no configured limits. -/
lemma configServoLimits_unknown (ch : ℕ) (h : 12 < ch) :
    configServoLimits ch = none := by
  unfold configServoLimits
  split_ifs <;> first | rfl | omega

/-- An integer whose rational cast is within one half of zero is zero. -/
lemma int_eq_of_cast_abs_lt_half (m : ℤ) (h : |(m : ℚ)| < 1/2) : m = 0 := by
  by_contra hne
  have h1 : (1 : ℤ) ≤ |m| := Int.one_le_abs (by omega)
  have h2 : (1 : ℚ) ≤ |(m : ℚ)| := by
    calc (1 : ℚ) = ((1 : ℤ) : ℚ) := by norm_num
    _ ≤ ((|m| : ℤ) : ℚ) := by exact_mod_cast h1
    _ = |(m : ℚ)| := by push_cast; rfl
  linarith

/-! Machinery for the batch-movement claims. -/

/-- One group visits one position per unit of distance plus the start. -/
lemma positionsRange_length (s t : ℤ) :
    (positionsRange s t).length = (t - s).natAbs + 1 := by
  unfold positionsRange
  split_ifs with h <;> simp only [List.length_map, List.length_range] <;> omega

/-- Every visited position is a legal angle when the endpoints are. -/
lemma mem_positionsRange_bounds {s t x : ℤ} (hx : x ∈ positionsRange s t)
    (hs0 : 0 ≤ s) (hs1 : s ≤ 180) (ht0 : 0 ≤ t) (ht1 : t ≤ 180) :
    0 ≤ x ∧ x ≤ 180 := by
  unfold positionsRange at hx
  split_ifs at hx <;>
  · simp only [List.mem_map, List.mem_range] at hx
    obtain ⟨i, hi, rfl⟩ := hx
    constructor <;> omega

/-- The last visited position is the target. -/
lemma positionsRange_getLast? (s t : ℤ) :
    (positionsRange s t).getLast? = some t := by
  unfold positionsRange
  split_ifs with h
  · have hn : (t - s + 1).toNat = (t - s).toNat + 1 := by omega
    rw [hn, List.range_succ, List.map_append, List.map_cons, List.map_nil,
      List.getLast?_concat]
    have he : s + ((t - s).toNat : ℤ) = t := by omega
    rw [he]
  · have hn : (s - t + 1).toNat = (s - t).toNat + 1 := by omega
    rw [hn, List.range_succ, List.map_append, List.map_cons, List.map_nil,
      List.getLast?_concat]
    have he : s - ((s - t).toNat : ℤ) = t := by omega
    rw [he]

/-- When every position is a legal angle, the pwm list comprehension yields
the mapped pwm values. -/
lemma pwmValues_eq_map (l : List ℤ) (h : ∀ x ∈ l, 0 ≤ x ∧ x ≤ 180) :
    pwmValues l = some (l.map pwmOf) := by
  induction l with
  | nil => rfl
  | cons p rest ih =>
    have hp := h p (List.mem_cons_self p rest)
    unfold pwmValues angleToPwm
    rw [if_pos hp, ih (fun x hx => h x (List.mem_cons_of_mem p hx))]
    rfl

/-- A channel outside a group is never touched by the group steps. -/
lemma foldl_groupStep_fst_not_mem (ids : List ℕ) (ch : ℕ) (hch : ch ∉ ids)
    (pwms : List ℤ) (acc : (ℕ → ℤ) × List (ℕ × ℤ)) :
    (pwms.foldl (groupStep ids) acc).1 ch = acc.1 ch := by
  induction pwms generalizing acc with
  | nil => rfl
  | cons p rest ih =>
    rw [List.foldl_cons, ih]
    simp [groupStep, hch]

/-- A channel of a group ends at the last pwm value of the step list. -/
lemma foldl_groupStep_fst_mem (ids : List ℕ) (ch : ℕ) (hch : ch ∈ ids)
    (pwms : List ℤ) (p : ℤ) (hlast : pwms.getLast? = some p)
    (acc : (ℕ → ℤ) × List (ℕ × ℤ)) :
    (pwms.foldl (groupStep ids) acc).1 ch = p := by
  induction pwms using List.reverseRecOn generalizing acc with
  | nil => cases hlast
  | append_singleton l a _ =>
    rw [List.getLast?_concat] at hlast
    rw [List.foldl_append, List.foldl_cons, List.foldl_nil]
    simp only [groupStep, if_pos hch]
    exact (Option.some.inj hlast)

/-- Each step writes each group channel once: the writes a channel receives
are one per step times its multiplicity in the group. -/
lemma filter_writes_map (ids : List ℕ) (pwm : ℤ) (ch : ℕ) :
    ((ids.map (fun c => (c, pwm))).filter
      (fun w => decide (w.1 = ch))).length = ids.count ch := by
  induction ids with
  | nil => rfl
  | cons c cs ih =>
    by_cases hc : c = ch <;>
      simp [List.filter_cons, List.count_cons, hc, ih]

/-- Total writes a channel receives over the steps of one group. -/
lemma foldl_groupStep_writes_count (ids : List ℕ) (ch : ℕ) (pwms : List ℤ)
    (acc : (ℕ → ℤ) × List (ℕ × ℤ)) :
    ((pwms.foldl (groupStep ids) acc).2.filter
      (fun w => decide (w.1 = ch))).length =
    (acc.2.filter (fun w => decide (w.1 = ch))).length +
      pwms.length * ids.count ch := by
  induction pwms generalizing acc with
  | nil => simp
  | cons p rest ih =>
    rw [List.foldl_cons, ih]
    simp only [groupStep, List.filter_append, List.length_append,
      filter_writes_map, List.length_cons]
    ring

/-- Every write of a group goes to a member channel. -/
lemma foldl_groupStep_writes_mem (ids : List ℕ) (pwms : List ℤ)
    (acc : (ℕ → ℤ) × List (ℕ × ℤ)) (w : ℕ × ℤ)
    (hw : w ∈ (pwms.foldl (groupStep ids) acc).2) :
    w ∈ acc.2 ∨ w.1 ∈ ids := by
  induction pwms generalizing acc with
  | nil => exact Or.inl hw
  | cons p rest ih =>
    rw [List.foldl_cons] at hw
    rcases ih _ hw with h | h
    · simp only [groupStep, List.mem_append, List.mem_map] at h
      rcases h with h | ⟨c, hc, rfl⟩
      · exact Or.inl h
      · exact Or.inr hc
    · exact Or.inr h

/-- Membership in a movement group, unfolded. -/
lemma mem_groupMembers (st : ℕ → ℤ) (validated : List (ℕ × ℤ)) (key : ℤ × ℤ)
    (ch : ℕ) :
    ch ∈ groupMembers st validated key ↔
      ∃ t, (ch, t) ∈ validated ∧ st ch ≠ t ∧ key = (st ch, t) := by
  unfold groupMembers movers
  simp only [List.mem_map, List.mem_filter, decide_eq_true_eq]
  constructor
  · rintro ⟨⟨c, t⟩, ⟨⟨hmem, hne⟩, hkey⟩, rfl⟩
    exact ⟨t, hmem, hne, hkey.symm⟩
  · rintro ⟨t, hmem, hne, hkey⟩
    exact ⟨(ch, t), ⟨⟨hmem, hne⟩, hkey.symm⟩, rfl⟩

/-- In a batch with distinct channels, a channel determines its target. -/
lemma fst_nodup_unique {l : List (ℕ × ℤ)} (hnd : (l.map Prod.fst).Nodup)
    {ch : ℕ} {t1 t2 : ℤ} (h1 : (ch, t1) ∈ l) (h2 : (ch, t2) ∈ l) :
    t1 = t2 := by
  induction l with
  | nil => cases h1
  | cons q rest ih =>
    rw [List.map_cons, List.nodup_cons] at hnd
    rcases List.mem_cons.mp h1 with he1 | hr1
    · rcases List.mem_cons.mp h2 with he2 | hr2
      · exact congrArg Prod.snd (he1.trans he2.symm)
      · exfalso
        apply hnd.1
        rw [← he1]
        have hm : ch ∈ List.map Prod.fst rest :=
          List.mem_map_of_mem Prod.fst hr2
        exact hm
    · rcases List.mem_cons.mp h2 with he2 | hr2
      · exfalso
        apply hnd.1
        rw [← he2]
        have hm : ch ∈ List.map Prod.fst rest :=
          List.mem_map_of_mem Prod.fst hr1
        exact hm
      · exact ih hnd.2 hr1 hr2

/-- The group keys list has no duplicates. -/
lemma groupKeys_nodup (st : ℕ → ℤ) (validated : List (ℕ × ℤ)) :
    (groupKeys st validated).Nodup :=
  List.nodup_dedup _

/-- A moving channel contributes its key to the group keys. -/
lemma mem_groupKeys_of (st : ℕ → ℤ) (validated : List (ℕ × ℤ)) (ch : ℕ)
    (tgt : ℤ) (hmem : (ch, tgt) ∈ validated) (hne : st ch ≠ tgt) :
    (st ch, tgt) ∈ groupKeys st validated := by
  unfold groupKeys movers
  rw [List.mem_dedup]
  exact List.mem_map_of_mem _
    (List.mem_filter.mpr ⟨hmem, by simpa using hne⟩)

/-- With distinct channels, a channel belongs only to the group keyed by its
own current position and target. -/
lemma groupMembers_key_eq (st : ℕ → ℤ) (validated : List (ℕ × ℤ)) (ch : ℕ)
    (tgt : ℤ) (hnd : (validated.map Prod.fst).Nodup)
    (hmem : (ch, tgt) ∈ validated) (k : ℤ × ℤ)
    (hk : ch ∈ groupMembers st validated k) : k = (st ch, tgt) := by
  obtain ⟨t, ht, _, rfl⟩ := (mem_groupMembers st validated k ch).mp hk
  rw [fst_nodup_unique hnd ht hmem]

/-- With distinct channels, each movement group lists its members once. -/
lemma groupMembers_nodup (st : ℕ → ℤ) (validated : List (ℕ × ℤ))
    (key : ℤ × ℤ) (hnd : (validated.map Prod.fst).Nodup) :
    (groupMembers st validated key).Nodup := by
  unfold groupMembers movers
  exact hnd.sublist
    (((List.filter_sublist _).trans (List.filter_sublist _)).map Prod.fst)

/-- With legal endpoints the group move succeeds and is the fold of the
mapped pwm values. -/
lemma moveServoGroup_eq (ids : List ℕ) (s t : ℤ) (st : ℕ → ℤ)
    (hs0 : 0 ≤ s) (hs1 : s ≤ 180) (ht0 : 0 ≤ t) (ht1 : t ≤ 180) :
    moveServoGroup ids s t st =
      some (((positionsRange s t).map pwmOf).foldl (groupStep ids)
        (st, [])) := by
  unfold moveServoGroup
  rw [pwmValues_eq_map]
  intro x hx
  exact mem_positionsRange_bounds hx hs0 hs1 ht0 ht1

/-- The pwm step list of a group ends at the pwm of the target angle. -/
lemma pwms_getLast (s t : ℤ) :
    ((positionsRange s t).map pwmOf).getLast? = some (pwmOf t) := by
  rw [List.getLast?_map, positionsRange_getLast?]
  rfl

/-- Processing one group leaves the state of non-member channels alone. -/
lemma groupProcess_fst_not_mem (st0 : ℕ → ℤ) (validated : List (ℕ × ℤ))
    (key : ℤ × ℤ) (acc : (ℕ → ℤ) × List (ℕ × ℤ)) (ch : ℕ)
    (hch : ch ∉ groupMembers st0 validated key) :
    (groupProcess st0 validated acc key).1 ch = acc.1 ch := by
  unfold groupProcess moveServoGroup
  cases hpw : pwmValues (positionsRange key.1 key.2) with
  | none => rfl
  | some pwms => exact foldl_groupStep_fst_not_mem _ _ hch _ _

/-- Processing one group adds no writes for a non-member channel. -/
lemma groupProcess_writes_not_mem (st0 : ℕ → ℤ) (validated : List (ℕ × ℤ))
    (key : ℤ × ℤ) (acc : (ℕ → ℤ) × List (ℕ × ℤ)) (ch : ℕ)
    (hch : ch ∉ groupMembers st0 validated key) :
    ((groupProcess st0 validated acc key).2.filter
      (fun w => decide (w.1 = ch))).length =
    (acc.2.filter (fun w => decide (w.1 = ch))).length := by
  unfold groupProcess moveServoGroup
  cases hpw : pwmValues (positionsRange key.1 key.2) with
  | none => rfl
  | some pwms =>
    simp only [List.filter_append, List.length_append,
      foldl_groupStep_writes_count, List.count_eq_zero_of_not_mem hch]
    simp

/-- Processing the group of a moving channel sets its state to the pwm of
its target and issues one write per visited position. -/
lemma groupProcess_at_key (st0 : ℕ → ℤ) (validated : List (ℕ × ℤ))
    (ch : ℕ) (tgt : ℤ) (acc : (ℕ → ℤ) × List (ℕ × ℤ))
    (hnd : (validated.map Prod.fst).Nodup)
    (hchm : ch ∈ groupMembers st0 validated (st0 ch, tgt))
    (hs0 : 0 ≤ st0 ch) (hs1 : st0 ch ≤ 180) (ht0 : 0 ≤ tgt) (ht1 : tgt ≤ 180) :
    (groupProcess st0 validated acc (st0 ch, tgt)).1 ch = pwmOf tgt ∧
    ((groupProcess st0 validated acc (st0 ch, tgt)).2.filter
      (fun w => decide (w.1 = ch))).length =
    (acc.2.filter (fun w => decide (w.1 = ch))).length +
      ((tgt - st0 ch).natAbs + 1) := by
  unfold groupProcess
  rw [moveServoGroup_eq _ _ _ _ hs0 hs1 ht0 ht1]
  constructor
  · exact foldl_groupStep_fst_mem _ _ hchm _ _ (pwms_getLast _ _) _
  · simp only [List.filter_append, List.length_append,
      foldl_groupStep_writes_count,
      List.count_eq_one_of_mem (groupMembers_nodup st0 validated _ hnd) hchm,
      List.length_map, positionsRange_length]
    simp

/-- Folding groups that never contain a channel keeps its state. -/
lemma foldl_groupProcess_fst_not_mem (st0 : ℕ → ℤ)
    (validated : List (ℕ × ℤ)) (keys : List (ℤ × ℤ))
    (acc : (ℕ → ℤ) × List (ℕ × ℤ)) (ch : ℕ)
    (h : ∀ k ∈ keys, ch ∉ groupMembers st0 validated k) :
    ((keys.foldl (groupProcess st0 validated) acc).1) ch = acc.1 ch := by
  induction keys generalizing acc with
  | nil => rfl
  | cons k rest ih =>
    rw [List.foldl_cons,
      ih _ (fun k' hk' => h k' (List.mem_cons_of_mem _ hk'))]
    exact groupProcess_fst_not_mem _ _ _ _ _ (h k (List.mem_cons_self _ _))

/-- Folding groups that never contain a channel adds no writes for it. -/
lemma foldl_groupProcess_writes_not_mem (st0 : ℕ → ℤ)
    (validated : List (ℕ × ℤ)) (keys : List (ℤ × ℤ))
    (acc : (ℕ → ℤ) × List (ℕ × ℤ)) (ch : ℕ)
    (h : ∀ k ∈ keys, ch ∉ groupMembers st0 validated k) :
    (((keys.foldl (groupProcess st0 validated) acc).2).filter
      (fun w => decide (w.1 = ch))).length =
    ((acc.2).filter (fun w => decide (w.1 = ch))).length := by
  induction keys generalizing acc with
  | nil => rfl
  | cons k rest ih =>
    rw [List.foldl_cons,
      ih _ (fun k' hk' => h k' (List.mem_cons_of_mem _ hk'))]
    exact groupProcess_writes_not_mem _ _ _ _ _ (h k (List.mem_cons_self _ _))

/-- Every write of a run goes to a member of some group. -/
lemma foldl_groupProcess_writes_mem (st0 : ℕ → ℤ)
    (validated : List (ℕ × ℤ)) (keys : List (ℤ × ℤ))
    (acc : (ℕ → ℤ) × List (ℕ × ℤ)) (w : ℕ × ℤ)
    (hw : w ∈ ((keys.foldl (groupProcess st0 validated) acc).2)) :
    w ∈ acc.2 ∨ ∃ k ∈ keys, w.1 ∈ groupMembers st0 validated k := by
  induction keys generalizing acc with
  | nil => exact Or.inl hw
  | cons k rest ih =>
    rw [List.foldl_cons] at hw
    rcases ih _ hw with h | ⟨k', hk', hm⟩
    · unfold groupProcess moveServoGroup at h
      rcases hpw : pwmValues (positionsRange k.1 k.2) with _ | pwms
      · rw [hpw] at h
        exact Or.inl h
      · rw [hpw] at h
        simp only [List.mem_append] at h
        rcases h with h | h
        · exact Or.inl h
        · rcases foldl_groupStep_writes_mem _ _ _ _ h with h2 | h2
          · cases h2
          · exact Or.inr ⟨k, List.mem_cons_self _ _, h2⟩
    · exact Or.inr ⟨k', List.mem_cons_of_mem _ hk', hm⟩

/-- Folding a key list that contains the key of a moving channel, while no
other key lists the channel, ends with the channel at the pwm of its target
and one write per visited position of its own group. -/
lemma foldl_groupProcess_key (st0 : ℕ → ℤ) (validated : List (ℕ × ℤ))
    (ch : ℕ) (tgt : ℤ) (hnd : (validated.map Prod.fst).Nodup)
    (hchm : ch ∈ groupMembers st0 validated (st0 ch, tgt))
    (hs0 : 0 ≤ st0 ch) (hs1 : st0 ch ≤ 180) (ht0 : 0 ≤ tgt) (ht1 : tgt ≤ 180)
    (keys : List (ℤ × ℤ)) (acc : (ℕ → ℤ) × List (ℕ × ℤ))
    (hknd : keys.Nodup) (hk0 : (st0 ch, tgt) ∈ keys)
    (huni : ∀ k ∈ keys, ch ∈ groupMembers st0 validated k →
      k = (st0 ch, tgt)) :
    ((keys.foldl (groupProcess st0 validated) acc).1) ch = pwmOf tgt ∧
    (((keys.foldl (groupProcess st0 validated) acc).2).filter
      (fun w => decide (w.1 = ch))).length =
    ((acc.2).filter (fun w => decide (w.1 = ch))).length +
      ((tgt - st0 ch).natAbs + 1) := by
  induction keys generalizing acc with
  | nil => cases hk0
  | cons k rest ih =>
    rw [List.foldl_cons]
    by_cases hk : k = (st0 ch, tgt)
    · subst hk
      have hrest : ∀ k' ∈ rest, ch ∉ groupMembers st0 validated k' := by
        intro k' hk' hm
        have hkeq := huni k' (List.mem_cons_of_mem _ hk') hm
        subst hkeq
        exact (List.nodup_cons.mp hknd).1 hk'
      constructor
      · rw [foldl_groupProcess_fst_not_mem _ _ _ _ _ hrest]
        exact (groupProcess_at_key st0 validated ch tgt acc hnd hchm hs0 hs1
          ht0 ht1).1
      · rw [foldl_groupProcess_writes_not_mem _ _ _ _ _ hrest]
        exact (groupProcess_at_key st0 validated ch tgt acc hnd hchm hs0 hs1
          ht0 ht1).2
    · have hk0r : (st0 ch, tgt) ∈ rest := by
        rcases List.mem_cons.mp hk0 with h | h
        · exact absurd h.symm hk
        · exact h
      have hnm : ch ∉ groupMembers st0 validated k := fun hm =>
        hk (huni k (List.mem_cons_self _ _) hm)
      have ihres := ih (groupProcess st0 validated acc k)
        (List.nodup_cons.mp hknd).2 hk0r
        (fun k' hk' hm => huni k' (List.mem_cons_of_mem _ hk') hm)
      refine ⟨ihres.1, ?_⟩
      rw [ihres.2, groupProcess_writes_not_mem _ _ _ _ _ hnm]

/-- A channel outside a group is untouched by the fallible group move. -/
lemma moveGroupGo_not_mem (sink : ℕ → ℤ → Bool) (ids : List ℕ) (c : ℕ)
    (hc : c ∉ ids) (pwms : List ℤ) (stf : ℕ → ℤ) :
    moveGroupGo sink ids pwms stf c = stf c := by
  induction pwms generalizing stf with
  | nil => rfl
  | cons p rest ih =>
    unfold moveGroupGo
    split_ifs
    · rw [ih]
      simp [hc]
    · rfl

/-! Claim theorems for the simpler claims. -/

/-- C3 counterexample: at angle 27 the code truncates int(235.75) to 235
while the specified round(235.75) is 236, so the mapper does not return
the rounded value. -/
theorem angle_to_pulse_not_round :
    angleToPwmQ 27 = 235 ∧ specAngleToPulse 27 = 236 ∧
    angleToPwmQ 27 ≠ specAngleToPulse 27 := by decide

/-- C3 (amended): on angles in the range 0 to 180 the mapper returns the
truncation (floor) of min_pulse + (a / 180) * (max_pulse - min_pulse) with
the 205/410 pair, which is within one below the specified rounding; the
endpoint values 205 at angle 0 and 410 at angle 180 are exact.  The mapper
is a pure function of its argument. -/
theorem angle_to_pulse_floor_spec (a : ℚ) (h0 : 0 ≤ a) (_h1 : a ≤ 180) :
    angleToPwmQ a = ⌊205 + a / 180 * 205⌋ ∧
    specAngleToPulse a - 1 ≤ angleToPwmQ a ∧
    angleToPwmQ a ≤ specAngleToPulse a ∧
    angleToPwmQ 0 = 205 ∧ angleToPwmQ 180 = 410 := by
  have hq : (0 : ℚ) ≤ 205 + a / 180 * 205 := by positivity
  have hfl : angleToPwmQ a = ⌊205 + a / 180 * 205⌋ := by
    unfold angleToPwmQ pyInt
    rw [if_neg (not_lt.mpr hq)]
  have hrnd : specAngleToPulse a = ⌊205 + a / 180 * 205 + 1/2⌋ := by
    unfold specAngleToPulse
    rw [round_eq]
  refine ⟨hfl, ?_, ?_, by decide, by decide⟩
  · rw [hfl, hrnd]
    have : (⌊205 + a / 180 * 205 + 1/2⌋ : ℤ) ≤ ⌊(205 + a / 180 * 205) + 1⌋ :=
      Int.floor_le_floor (by linarith)
    rw [Int.floor_add_one] at this
    omega
  · rw [hfl, hrnd]
    exact Int.floor_le_floor (by linarith)

/-- C3 witness: the amended statement evaluated at angle 27. -/
theorem angle_to_pulse_floor_spec_witness :
    angleToPwmQ 27 = ⌊(205 : ℚ) + 27 / 180 * 205⌋ :=
  (angle_to_pulse_floor_spec 27 (by norm_num) (by norm_num)).1

/-- C4: the safety clamp equals max(min_angle, min(max_angle, angle)) for the
per-channel limit table, is the identity inside the limits, and saturates at
the limits outside them. -/
theorem clamp_contract (ch : ℕ) (a : ℚ) :
    clampAngle ch a =
      max ((servoLimits ch).1 : ℚ) (min ((servoLimits ch).2 : ℚ) a) ∧
    (((servoLimits ch).1 : ℚ) ≤ a → a ≤ ((servoLimits ch).2 : ℚ) →
      clampAngle ch a = a) ∧
    (a < ((servoLimits ch).1 : ℚ) →
      clampAngle ch a = ((servoLimits ch).1 : ℚ)) ∧
    (((servoLimits ch).2 : ℚ) < a →
      clampAngle ch a = ((servoLimits ch).2 : ℚ)) := by
  have hle : ((servoLimits ch).1 : ℚ) ≤ ((servoLimits ch).2 : ℚ) := by
    exact_mod_cast servoLimits_fst_le_snd ch
  refine ⟨rfl, ?_, ?_, ?_⟩
  · intro hlo hhi
    unfold clampAngle
    rw [min_eq_right hhi, max_eq_right hlo]
  · intro hlt
    unfold clampAngle
    rw [min_eq_right (le_of_lt (lt_of_lt_of_le hlt hle)),
      max_eq_left (le_of_lt hlt)]
  · intro hgt
    unfold clampAngle
    rw [min_eq_left (le_of_lt hgt), max_eq_right hle]

/-- C4 witness: the clamp applied to the head channel at the in-range angle
90 and at the out-of-range angles 20 and 200. -/
theorem clamp_contract_witness :
    clampAngle 0 90 = 90 ∧ clampAngle 0 20 = ((servoLimits 0).1 : ℚ) ∧
    clampAngle 0 200 = ((servoLimits 0).2 : ℚ) :=
  ⟨(clamp_contract 0 90).2.1 (by norm_num [servoLimits])
      (by norm_num [servoLimits]),
    (clamp_contract 0 20).2.2.1 (by norm_num [servoLimits]),
    (clamp_contract 0 200).2.2.2 (by norm_num [servoLimits])⟩

/-- C7: for a channel absent from the limit table the lookup recovers with
the (0, 180) fallback and clamping proceeds with that full range. -/
theorem clamp_unknown_channel (ch : ℕ) (a : ℚ) (h : 12 < ch) :
    servoLimits ch = (0, 180) ∧ clampAngle ch a = max 0 (min 180 a) := by
  have hl := servoLimits_unknown ch h
  refine ⟨hl, ?_⟩
  unfold clampAngle
  rw [hl]
  norm_num

/-- C7 witness: channel 13 is not in the table; clamping at 200 degrees
saturates at the fallback maximum. -/
theorem clamp_unknown_channel_witness :
    servoLimits 13 = (0, 180) ∧ clampAngle 13 200 = max 0 (min 180 200) :=
  clamp_unknown_channel 13 200 (by norm_num)

/-- C8: set_servo on an unknown servo id raises ServoError (the invalid
channel error) during validation and issues no device write. -/
theorem invalid_channel_raises (ch : ℕ) (a : ℚ) (st : ℕ → ℤ)
    (h : configServoLimits ch = none) :
    setServo1 ch a st = .error (.invalidServo ch) ∧
    batchWrites [(ch, a)] st = [] := by
  have hv : validateAll [(ch, a)] = .error (.invalidServo ch) := by
    unfold validateAll validateServoParams
    rw [h]
    rfl
  constructor
  · unfold setServo1 setServoBatch
    rw [hv]
  · unfold batchWrites setServoBatch
    rw [hv]

/-- C8 witness: channel 13 with a 90 degree request raises and writes
nothing. -/
theorem invalid_channel_raises_witness :
    setServo1 13 90 defaultState = .error (.invalidServo 13) ∧
    batchWrites [(13, 90)] defaultState = [] :=
  invalid_channel_raises 13 90 defaultState (configServoLimits_unknown 13
    (by norm_num))

/-- C2 (code bug): with servo 5 stored at 90, setting it to the in-limits
angle 120 leaves 341 in the stored position — the pwm count of 120, not the
angle — so reading the position back is off by 221 degrees, far beyond the
0.5 degree tolerance.  The move-servo-group method assigns pwm_value to the
position field that everywhere else holds degrees. -/
theorem stored_position_is_pwm_not_angle :
    batchPos [(5, 120)] defaultState 5 = some 341 ∧
    (1/2 : ℚ) ≤ |(341 : ℚ) - 120| := by decide

/-- C1 counterexample: the batch 5 to 120 and 6 to 100 from 90/90.  The claim
predicts a shared step count of max(30, 10) for both channels and final
stored angles 120 and 100; the code instead issues 31 writes for channel 5
and 11 for channel 6 (each group has its own step count) and stores the pwm
count 318 for channel 6, not its clamped target 100. -/
theorem batch_not_lockstep :
    batchPos [(5, 120), (6, 100)] defaultState 6 = some 318 ∧
    (318 : ℤ) ≠ 100 ∧
    ((batchWrites [(5, 120), (6, 100)] defaultState).filter
      (fun w => decide (w.1 = 5))).length = 31 ∧
    ((batchWrites [(5, 120), (6, 100)] defaultState).filter
      (fun w => decide (w.1 = 6))).length = 11 ∧
    (11 : ℕ) ≠ 31 := by decide

/-- C6 counterexample: with the faulty device that raises on channel 5 at
pwm 330 (angle 110), the batch 5 to 120 and 6 to 100 returns successfully —
the exception is swallowed, no HardwareWriteError (which does not exist in
the code) reaches the caller — while channel 5 is left mid-move at the pwm
of angle 109 and the sibling group of channel 6 completes. -/
theorem write_failure_not_reported :
    Except.map (fun r => (r 5, r 6))
        (setServoBatchF faultySink [(5, 120), (6, 100)] defaultState) =
      .ok (329, 318) := by decide

/-- C9: releasing a channel issues the zero-duty write set_pwm(ch, 0, 0),
removes the channel from the position cache so a later read returns the
default 90, and in particular releasing channel 3 after setting it to 60
makes the read return 90 rather than 60. -/
theorem release_removes_channel (st : CalState) (ch : ℕ) (speed : ℚ) :
    (calSetServo st ch none speed).1 ch = none ∧
    (calSetServo st ch none speed).2.1 = [(ch, 0)] ∧
    (calSetServo st ch none speed).2.2 = true ∧
    calGet (calSetServo st ch none speed).1 ch = 90 ∧
    calGet (calSetServo calEmpty 3 (some 60) 0).1 3 = 60 ∧
    calGet (calSetServo (calSetServo calEmpty 3 (some 60) 0).1 3 none 0).1 3
      = 90 := by
  refine ⟨?_, ?_, ?_, ?_, by decide, by decide⟩ <;>
    simp [calSetServo, calSetServoF, calGet]

/-- C10: in calibration set_servo the cache entry of a channel changes only
when the result is True and then holds the clamped target; whenever the
result is False (some device write raised) the whole cache is returned
unchanged. -/
theorem cache_unchanged_on_failure (sink : ℕ → ℤ → Bool) (st : CalState)
    (ch : ℕ) (a : ℚ) (speed : ℚ) :
    ((calSetServoF sink st ch (some a) speed).2.2 = false →
      (calSetServoF sink st ch (some a) speed).1 = st) ∧
    ((calSetServoF sink st ch (some a) speed).1 ch ≠ st ch →
      (calSetServoF sink st ch (some a) speed).2.2 = true ∧
      (calSetServoF sink st ch (some a) speed).1 ch =
        some (clampAngle ch a)) := by
  simp only [calSetServoF]
  split_ifs <;> simp

/-- C10 witness: a device that always raises makes set_servo return False
with the empty cache unchanged. -/
theorem cache_unchanged_on_failure_witness :
    (calSetServoF (fun _ _ => false) calEmpty 3 (some 60) 0).1 = calEmpty :=
  (cache_unchanged_on_failure (fun _ _ => false) calEmpty 3 60 0).1 (by decide)

/-- C1 (amended): set_servo_batch does not use a shared batch-wide step
count.  It partitions the channels by (current, target) pair; each group
independently visits its own distance-plus-one integer positions, writing
once per position for each of its channels, and afterward a moved channel's
stored position equals the pwm count of its clamped target — not the target
angle. -/
theorem batch_moves_groupwise (batch : List (ℕ × ℚ)) (st : ℕ → ℤ)
    (validated : List (ℕ × ℤ)) (ch : ℕ) (tgt : ℤ)
    (hv : validateAll batch = .ok validated)
    (hnd : (validated.map Prod.fst).Nodup)
    (hmem : (ch, tgt) ∈ validated) (hne : st ch ≠ tgt)
    (hs0 : 0 ≤ st ch) (hs1 : st ch ≤ 180) (ht0 : 0 ≤ tgt) (ht1 : tgt ≤ 180) :
    batchPos batch st ch = some (pwmOf tgt) ∧
    ((batchWrites batch st).filter (fun w => decide (w.1 = ch))).length =
      (tgt - st ch).natAbs + 1 := by
  have hchm : ch ∈ groupMembers st validated (st ch, tgt) :=
    (mem_groupMembers st validated _ ch).mpr ⟨tgt, hmem, hne, rfl⟩
  have hb : setServoBatch batch st = .ok (runGroups st validated) := by
    unfold setServoBatch
    rw [hv]
  have hmain := foldl_groupProcess_key st validated ch tgt hnd hchm hs0 hs1
    ht0 ht1 (groupKeys st validated) (st, []) (groupKeys_nodup st validated)
    (mem_groupKeys_of st validated ch tgt hmem hne)
    (fun k _ hm => groupMembers_key_eq st validated ch tgt hnd hmem k hm)
  constructor
  · unfold batchPos
    rw [hb]
    unfold runGroups at hmain ⊢
    exact congrArg some hmain.1
  · unfold batchWrites
    rw [hb]
    unfold runGroups at hmain ⊢
    rw [hmain.2]
    simp

/-- C1 witness: the amended statement at the batch 5 to 120 and 6 to 100
from the 90-degree default state, looking at channel 5. -/
theorem batch_moves_groupwise_witness :
    batchPos [(5, 120), (6, 100)] defaultState 5 = some (pwmOf 120) ∧
    ((batchWrites [(5, 120), (6, 100)] defaultState).filter
      (fun w => decide (w.1 = 5))).length =
      ((120 : ℤ) - defaultState 5).natAbs + 1 :=
  batch_moves_groupwise [(5, 120), (6, 100)] defaultState
    [(5, 120), (6, 100)] 5 120 (by decide) (by decide) (by decide)
    (by decide) (by decide) (by decide) (by decide) (by decide)

/-- C5: a channel whose current stored angle is within half a degree of its
clamped target is entered into no movement group, so no device write is
issued for it (the stored batch positions are integers, so the half-degree
tolerance coincides with the exact skip test of the source); the set_servo
of calibration.py skips such a move explicitly.  In the scenario batch of
channel 5 from 90 to 120 and channel 6 from 90 to 90, channel 6 receives no
write while channel 5 alone receives the 31 writes of its 30 unit steps. -/
theorem half_degree_skip (batch : List (ℕ × ℚ)) (st : ℕ → ℤ)
    (validated : List (ℕ × ℤ)) (ch : ℕ) (tgt : ℤ)
    (hv : validateAll batch = .ok validated)
    (hnd : (validated.map Prod.fst).Nodup)
    (hmem : (ch, tgt) ∈ validated)
    (hclose : |(st ch : ℚ) - (tgt : ℚ)| < 1/2) :
    (∀ w ∈ batchWrites batch st, w.1 ≠ ch) ∧
    (∀ (stc : CalState) (c : ℕ) (a : ℚ) (sp : ℚ),
      |calGet stc c - clampAngle c a| < 1/2 →
      calSetServo stc c (some a) sp = (stc, [], true)) ∧
    ((batchWrites [(5, 120), (6, 90)] defaultState).filter
      (fun w => decide (w.1 = 6))).length = 0 ∧
    ((batchWrites [(5, 120), (6, 90)] defaultState).filter
      (fun w => decide (w.1 = 5))).length = 30 + 1 := by
  have heq : st ch = tgt := by
    have hz := int_eq_of_cast_abs_lt_half (st ch - tgt) (by push_cast; exact hclose)
    omega
  have hb : setServoBatch batch st = .ok (runGroups st validated) := by
    unfold setServoBatch
    rw [hv]
  refine ⟨?_, ?_, by decide, by decide⟩
  · intro w hw hwch
    unfold batchWrites at hw
    rw [hb] at hw
    unfold runGroups at hw
    rcases foldl_groupProcess_writes_mem _ _ _ _ _ hw with h | ⟨k, _, hm⟩
    · cases h
    · rw [hwch] at hm
      obtain ⟨t, ht, hnet, _⟩ := (mem_groupMembers st validated k ch).mp hm
      rw [fst_nodup_unique hnd ht hmem] at hnet
      exact hnet heq
  · intro stc c a sp h
    simp only [calSetServo, calSetServoF]
    rw [if_pos h]

/-- C5 witness: the statement at the scenario batch with channel 6, whose
target 90 matches its current position. -/
theorem half_degree_skip_witness :
    ((batchWrites [(5, 120), (6, 90)] defaultState).filter
      (fun w => decide (w.1 = 6))).length = 0 :=
  (half_degree_skip [(5, 120), (6, 90)] defaultState [(5, 120), (6, 90)]
    6 90 (by decide) (by decide) (by decide)
    (by norm_num [defaultState])).2.2.1

/-- C6 (amended): a device-write failure inside set_servo_batch aborts the
remaining steps of the failing channel's own movement group but leaves every
channel outside that group untouched, and the failure is never reported: the
bare except/continue swallows it, so whenever validation succeeds the call
returns normally — no HardwareWriteError exists in the code. -/
theorem device_errors_swallowed (sink : ℕ → ℤ → Bool)
    (batch : List (ℕ × ℚ)) (st : ℕ → ℤ) (validated : List (ℕ × ℤ))
    (hv : validateAll batch = .ok validated) :
    (∃ r, setServoBatchF sink batch st = .ok r) ∧
    (∀ (ids : List ℕ) (s t : ℤ) (stf : ℕ → ℤ) (c : ℕ), c ∉ ids →
      moveServoGroupF sink ids s t stf c = stf c) := by
  constructor
  · refine ⟨(groupKeys st validated).foldl
      (fun acc key =>
        moveServoGroupF sink (groupMembers st validated key) key.1 key.2 acc)
      st, ?_⟩
    unfold setServoBatchF
    rw [hv]
  · intro ids s t stf c hc
    unfold moveServoGroupF
    cases pwmValues (positionsRange s t) with
    | none => rfl
    | some pwms => exact moveGroupGo_not_mem sink ids c hc pwms stf

/-- C6 witness: under the faulty device, a channel outside the failing group
of channel 5 keeps its state. -/
theorem device_errors_swallowed_witness :
    moveServoGroupF faultySink [5] 90 120 defaultState 6 = defaultState 6 :=
  (device_errors_swallowed faultySink [(5, 120), (6, 100)] defaultState
    [(5, 120), (6, 100)] (by decide)).2 [5] 90 120 defaultState 6 (by decide)

end Robot
